import Mathlib

/-! # NintendoChannel `dllist`: serializer, header protocol and worker pool

A shallow embedding of `src/dllist/dllist.go`.

* Unsigned machine integers are natural numbers; every conversion or store that
  can lose bits is written with an explicit `% 2 ^ w`.
* A byte sequence is a list of naturals; everything the encoders emit is
  reduced `% 256`.
* `bytes.Buffer` is the list of bytes written so far; writing appends,
  `Reset` empties it.
* `encoding/binary` and `hash/crc32` are Go standard library packages; the
  parts `dllist.go` calls are transcribed from the portable code
  paths.
* The record types (`Header`, `RatingTable`, ...) are declared in other files
  of the package. `binary.Write` sees a struct only as the sequence of its
  fixed-width scalar fields in declaration order, so a record value is that
  sequence (`Record`). Nothing below depends on which fields a record has.
-/

/-- A Go slice `[]T`, holding its elements in index order. -/
abbrev Slice (α : Type) := List α

/-- A sequence of bytes (`[]byte`). -/
abbrev Bytes := Slice Nat

/-! ## `bytes.Buffer` -/

namespace bytes

/-- The unread contents of a `bytes.Buffer` that is only written to. -/
abbrev Buffer := Bytes

/-- `bytes.NewBuffer(nil)`: a buffer with no contents. -/
def NewBuffer : Buffer := []

/-- `(*Buffer).Len`. -/
def Buffer.Len (b : Buffer) : Nat := b.length

/-- `(*Buffer).Reset`: discards the contents. -/
def Buffer.Reset (_b : Buffer) : Buffer := []

/-- `(*Buffer).Write`: appends `p` to the contents. -/
def Buffer.Write (b : Buffer) (p : Bytes) : Buffer := b ++ p

/-- `(*Buffer).Bytes`. -/
def Buffer.Bytes (b : Buffer) : Bytes := b

end bytes

/-! ## `encoding/binary`, big-endian, fixed-size data -/

namespace binary

/-- `bigEndian.PutUint16`: `b[0] = byte(v >> 8); b[1] = byte(v)`. -/
def PutUint16 (v : Nat) : Bytes := [(v >>> 8) % 256, v % 256]

/-- `bigEndian.PutUint32`:
`b[0] = byte(v >> 24); b[1] = byte(v >> 16); b[2] = byte(v >> 8); b[3] = byte(v)`. -/
def PutUint32 (v : Nat) : Bytes :=
  [(v >>> 24) % 256, (v >>> 16) % 256, (v >>> 8) % 256, v % 256]

/-- `bigEndian.PutUint64`. -/
def PutUint64 (v : Nat) : Bytes :=
  [(v >>> 56) % 256, (v >>> 48) % 256, (v >>> 40) % 256, (v >>> 32) % 256,
   (v >>> 24) % 256, (v >>> 16) % 256, (v >>> 8) % 256, v % 256]

/-- A fixed-width scalar as `binary.Write` sees it, given by its bit pattern
read as an unsigned integer (signed integers and booleans of the same width
are written through the same byte stores). -/
inductive Field where
  | uint8 (v : Nat)
  | uint16 (v : Nat)
  | uint32 (v : Nat)
  | uint64 (v : Nat)
  deriving DecidableEq

/-- Width of a scalar in bytes (`binary.Size` on a scalar). -/
def Field.size : Field → Nat
  | .uint8 _ => 1
  | .uint16 _ => 2
  | .uint32 _ => 4
  | .uint64 _ => 8

/-- The store the encoder makes for one scalar. -/
def Field.encode : Field → Bytes
  | .uint8 v => [v % 256]
  | .uint16 v => PutUint16 v
  | .uint32 v => PutUint32 v
  | .uint64 v => PutUint64 v

/-- A struct value (nested structs and arrays flattened): its scalar fields in
declaration order. -/
abbrev Record := Slice Field

/-- The encoder walking a struct: each field in declaration order. -/
def Record.encode : Record → Bytes
  | [] => []
  | f :: fs => f.encode ++ Record.encode fs

/-- `binary.Size` of a struct value. -/
def Record.size : Record → Nat
  | [] => 0
  | f :: fs => f.size + Record.size fs

/-- The values `dllist.go` passes as `data any`: one struct, a slice of
structs, or a slice of `uint32`. -/
inductive Data where
  | struct (r : Record)
  | structs (rs : Slice Record)
  | uint32s (vs : Slice Nat)

/-- Encoding of a slice of structs: element by element, in index order. -/
def encodeStructs : Slice Record → Bytes
  | [] => []
  | r :: rs => r.encode ++ encodeStructs rs

/-- Encoding of `[]uint32` (the fast path `for i, x := range v
{ order.PutUint32(bs[4*i:], x) }`). -/
def encodeUint32s : Slice Nat → Bytes
  | [] => []
  | v :: vs => PutUint32 v ++ encodeUint32s vs

/-- The bytes `binary.Write` produces for `data` in big-endian order. -/
def Data.encode : Data → Bytes
  | .struct r => r.encode
  | .structs rs => encodeStructs rs
  | .uint32s vs => encodeUint32s vs

/-- `binary.Write(w, binary.BigEndian, data)` into a `bytes.Buffer`: the
encoding is built and handed to the writer in one `Write` call. For fixed-size
data and a `bytes.Buffer` the returned error is always nil. -/
def Write (w : bytes.Buffer) (data : Data) : bytes.Buffer :=
  w.Write data.encode

end binary

/-! ## `hash/crc32` -/

namespace crc32

/-- `crc32.IEEE`, the reversed IEEE polynomial. -/
def IEEE : Nat := 0xedb88320

/-- A `crc32.Table` (`[256]uint32`). -/
abbrev Table := Slice Nat

/-- Inner loop body of `simpleMakeTable`:
`if crc&1 == 1 { crc = (crc >> 1) ^ poly } else { crc >>= 1 }`. -/
def tableStep (poly crc : Nat) : Nat :=
  if crc &&& 1 = 1 then (crc >>> 1) ^^^ poly else crc >>> 1

/-- Entry `i` of the table: eight rounds of `tableStep` starting at `uint32(i)`. -/
def tableEntry (poly i : Nat) : Nat :=
  (tableStep poly)^[8] i

/-- `crc32.MakeTable` (portable `simpleMakeTable`). -/
def MakeTable (poly : Nat) : Table :=
  (List.range 256).map (tableEntry poly)

/-- Loop body of `simpleUpdate`: `crc = tab[byte(crc)^v] ^ (crc >> 8)`. -/
def updateByte (tab : Table) (crc v : Nat) : Nat :=
  tab.getD ((crc % 256) ^^^ v) 0 ^^^ (crc >>> 8)

/-- `simpleUpdate`: `crc = ^crc`, the loop over `p`, `return ^crc`
(complement of a `uint32` is xor with `0xffffffff`). -/
def Update (crc : Nat) (tab : Table) (p : Bytes) : Nat :=
  (p.foldl (updateByte tab) (crc ^^^ 0xffffffff)) ^^^ 0xffffffff

/-- `crc32.Checksum(data, tab)` is `Update(0, tab, data)`. -/
def Checksum (data : Bytes) (tab : Table) : Nat :=
  Update 0 tab data

end crc32

/-! ## `constants` -/

namespace constants

/-- `constants.RegionMeta`: a region, its languages and its rating group. -/
structure RegionMeta where
  Region : Nat
  Languages : Slice Nat
  RatingGroup : Nat
  deriving DecidableEq

end constants

/-! ## `dllist` -/

namespace dllist

open binary

/-- The `Header` struct. Its declaration is not in `dllist.go`; what the file
uses are its two `uint32` fields `Filesize` and `CRC32`. Every other field is
kept as an uninterpreted run of scalars: `front` before the first of the two,
`between` them, `back` after the second. `crcFirst` records the declaration
order of the two (true when `CRC32` is declared before `Filesize`). -/
structure Header where
  front : Record
  Filesize : Nat
  between : Record
  CRC32 : Nat
  back : Record
  crcFirst : Bool
  deriving DecidableEq

/-- The scalar fields of the header in declaration order. -/
def Header.fields (h : Header) : Record :=
  if h.crcFirst then
    h.front ++ [Field.uint32 h.CRC32] ++ h.between ++ [Field.uint32 h.Filesize] ++ h.back
  else
    h.front ++ [Field.uint32 h.Filesize] ++ h.between ++ [Field.uint32 h.CRC32] ++ h.back

/-- Record types of the tables; declared elsewhere in the package, fixed-size
structs for `binary.Write`. -/
abbrev RatingTable := Record
/-- See `RatingTable`. -/
abbrev TitleTypeTable := Record
/-- See `RatingTable`. -/
abbrev CompanyTable := Record
/-- See `RatingTable`. -/
abbrev TitleTable := Record
/-- See `RatingTable`. -/
abbrev VideoTable := Record
/-- See `RatingTable`. -/
abbrev NewVideoTable := Record
/-- See `RatingTable`. -/
abbrev DemoTable := Record
/-- See `RatingTable`. -/
abbrev RecentRecommendationTable := Record
/-- See `RatingTable`. -/
abbrev PopularVideosTable := Record
/-- See `RatingTable`. -/
abbrev DetailedRatingTable := Record
/-- See `RatingTable`. -/
abbrev TitleRecommendation := Record

/-- The `List` struct (`dllist.go` lines 23-46). `imageBuffer` is a pointer and
may be nil (`none`). -/
structure List where
  Header : Header
  RatingsTable : Slice RatingTable
  TitleTypesTable : Slice TitleTypeTable
  CompaniesTable : Slice CompanyTable
  TitleTable : Slice TitleTable
  NewTitleTable : Slice Nat
  VideoTable : Slice VideoTable
  NewVideoTable : Slice NewVideoTable
  DemoTable : Slice DemoTable
  RecommendationTable : Slice Nat
  RecentRecommendationTable : Slice RecentRecommendationTable
  PopularVideosTable : Slice PopularVideosTable
  DetailedRatingTable : Slice DetailedRatingTable
  region : Nat
  ratingGroup : Nat
  language : Nat
  recommendations : Slice (String × TitleRecommendation)
  imageBuffer : Option bytes.Buffer

/-- `List.Write` (lines 160-163): `binary.Write` in big-endian order followed
by `checkError`, which does nothing on a nil error. -/
def List.Write (_l : List) (writer : bytes.Buffer) (data : Data) : bytes.Buffer :=
  binary.Write writer data

/-- `List.WriteAll` (lines 165-179). -/
def List.WriteAll (l : List) (writer : bytes.Buffer) : bytes.Buffer :=
  let writer := l.Write writer (.struct l.Header.fields)
  let writer := l.Write writer (.structs l.RatingsTable)
  let writer := l.Write writer (.structs l.TitleTypesTable)
  let writer := l.Write writer (.structs l.CompaniesTable)
  let writer := l.Write writer (.structs l.TitleTable)
  let writer := l.Write writer (.uint32s l.NewTitleTable)
  let writer := l.Write writer (.structs l.VideoTable)
  let writer := l.Write writer (.structs l.NewVideoTable)
  let writer := l.Write writer (.structs l.DemoTable)
  let writer := l.Write writer (.uint32s l.RecommendationTable)
  let writer := l.Write writer (.structs l.RecentRecommendationTable)
  let writer := l.Write writer (.structs l.PopularVideosTable)
  let writer := l.Write writer (.structs l.DetailedRatingTable)
  writer

/-- `List.GetCurrentSize` (lines 183-189). `l.imageBuffer.Bytes()` dereferences
the pointer, so a nil image buffer panics (`none`); the result is
`uint32(buffer.Len())`. -/
def List.GetCurrentSize (l : List) : Option Nat :=
  let buffer := bytes.NewBuffer
  let buffer := l.WriteAll buffer
  match l.imageBuffer with
  | none => none
  | some img =>
    let buffer := buffer.Write img.Bytes
    some (buffer.Len % 2 ^ 32)

/-- What the header protocol leaves behind: the contents of `temp` after each
of the three `WriteAll` calls and the aggregate after the last store. -/
structure Passes where
  pass1 : bytes.Buffer
  pass2 : bytes.Buffer
  pass3 : bytes.Buffer
  list : List

/-- The header protocol in the worker of `MakeDownloadList` (lines 129-140). -/
def MakeDownloadList.headerProtocol (list : List) : Passes :=
  let temp := bytes.NewBuffer
  let temp := list.WriteAll temp
  let pass1 := temp
  -- list.Header.Filesize = uint32(temp.Len())
  let list := { list with Header := { list.Header with Filesize := temp.Len % 2 ^ 32 } }
  let temp := temp.Reset
  let temp := list.WriteAll temp
  let pass2 := temp
  let crcTable := crc32.MakeTable crc32.IEEE
  let checksum := crc32.Checksum temp.Bytes crcTable
  let list := { list with Header := { list.Header with CRC32 := checksum } }
  let temp := temp.Reset
  let temp := list.WriteAll temp
  { pass1 := pass1, pass2 := pass2, pass3 := temp, list := list }

/-! ### The side of the reader: what the format description asks of the bytes -/

/-- Fixed-width big-endian encoding as the format describes it: the `w`
base-256 digits of `v`, most significant first. -/
def bigEndian : Nat → Nat → Bytes
  | 0, _ => []
  | w + 1, v => (v / 256 ^ w) % 256 :: bigEndian w v

/-- Reading a big-endian byte sequence back as a number. -/
def fromBigEndian (bs : Bytes) : Nat :=
  bs.foldl (fun acc b => acc * 256 + b) 0

/-- The bit pattern of a scalar. -/
def fieldValue : Field → Nat
  | .uint8 v => v
  | .uint16 v => v
  | .uint32 v => v
  | .uint64 v => v

/-- One record in the fixed-width big-endian format: its fields one after the
other, nothing in between. -/
def formatRecord (r : Record) : Bytes :=
  (r.map (fun f => bigEndian f.size (fieldValue f))).flatten

/-- A table of records in the format: the records in slice order, nothing in
between. -/
def formatTable (rs : Slice Record) : Bytes :=
  (rs.map formatRecord).flatten

/-- An index table in the format: four big-endian bytes per entry. -/
def formatIndexTable (vs : Slice Nat) : Bytes :=
  (vs.map (bigEndian 4)).flatten

/-- Total size of a table of records, record by record. -/
def tableSize (rs : Slice Record) : Nat :=
  (rs.map Record.size).sum

/-- Byte offset of the `CRC32` field from the start of the serialized output
(the header is written first). -/
def Header.checksumOffset (h : Header) : Nat :=
  if h.crcFirst then h.front.size else h.front.size + 4 + h.between.size

/-- The step of the verifier: the four bytes of the checksum field of `out` set to
zero, every other byte kept. -/
def zeroChecksumField (h : Header) (out : Bytes) : Bytes :=
  out.take h.checksumOffset ++ [0, 0, 0, 0] ++ out.drop (h.checksumOffset + 4)

/-- The four bytes of `out` at the position of the checksum field. -/
def checksumFieldBytes (h : Header) (out : Bytes) : Bytes :=
  (out.drop h.checksumOffset).take 4

/-- The aggregate with given contents of the two self-referential fields. -/
def List.withHeaderFields (l : List) (filesize crc : Nat) : List :=
  { l with Header := { l.Header with Filesize := filesize, CRC32 := crc } }

/-- A header holding only the two self-referential fields. -/
def bareHeader (filesize crc : Nat) : Header :=
  { front := [], Filesize := filesize, between := [], CRC32 := crc, back := [],
    crcFirst := false }

/-- An aggregate with the given header and every table empty. -/
def emptyList (h : Header) : List :=
  { Header := h, RatingsTable := [], TitleTypesTable := [], CompaniesTable := [],
    TitleTable := [], NewTitleTable := [], VideoTable := [], NewVideoTable := [],
    DemoTable := [], RecommendationTable := [], RecentRecommendationTable := [],
    PopularVideosTable := [], DetailedRatingTable := [], region := 0, ratingGroup := 0,
    language := 0, recommendations := [], imageBuffer := some bytes.NewBuffer }

/-- The serialized header up to the checksum field. -/
def Header.beforeChecksum (h : Header) : Bytes :=
  if h.crcFirst then Record.encode h.front
  else Record.encode h.front ++ PutUint32 h.Filesize ++ Record.encode h.between

/-- The serialized header after the checksum field. -/
def Header.afterChecksum (h : Header) : Bytes :=
  if h.crcFirst then Record.encode h.between ++ PutUint32 h.Filesize ++ Record.encode h.back
  else Record.encode h.back

/-- The serialized tables, in the order `WriteAll` writes them. -/
def List.tableBytes (l : List) : Bytes :=
  encodeStructs l.RatingsTable ++ encodeStructs l.TitleTypesTable ++
    encodeStructs l.CompaniesTable ++ encodeStructs l.TitleTable ++
    encodeUint32s l.NewTitleTable ++ encodeStructs l.VideoTable ++
    encodeStructs l.NewVideoTable ++ encodeStructs l.DemoTable ++
    encodeUint32s l.RecommendationTable ++ encodeStructs l.RecentRecommendationTable ++
    encodeStructs l.PopularVideosTable ++ encodeStructs l.DetailedRatingTable

/-- Sum of the sizes of the header and of every table entry: the length the
output has when nothing but the records themselves is written. -/
def List.naturalSize (l : List) : Nat :=
  Record.size l.Header.fields + tableSize l.RatingsTable + tableSize l.TitleTypesTable +
    tableSize l.CompaniesTable + tableSize l.TitleTable + 4 * l.NewTitleTable.length +
    tableSize l.VideoTable + tableSize l.NewVideoTable + tableSize l.DemoTable +
    4 * l.RecommendationTable.length + tableSize l.RecentRecommendationTable +
    tableSize l.PopularVideosTable + tableSize l.DetailedRatingTable

/-- A small populated aggregate: a 16-byte header, one rating record, one title
record, one new-title index entry and three bytes of image data. -/
def sampleList : List :=
  { emptyList { front := [.uint16 0, .uint8 6, .uint8 0], Filesize := 0, between := [],
                CRC32 := 0, back := [.uint32 1], crcFirst := false } with
    RatingsTable := [[.uint8 8, .uint8 3]]
    TitleTable := [[.uint32 0x52535045, .uint16 2]]
    NewTitleTable := [5]
    imageBuffer := some [1, 2, 3] }

/-- The scenario of the size invariant: one rating record, one title record,
every other table empty, no image data. -/
def scenarioList : List :=
  { emptyList { front := [.uint16 0, .uint8 0, .uint8 0], Filesize := 0, between := [],
                CRC32 := 0, back := [.uint32 0], crcFirst := false } with
    RatingsTable := [[.uint8 8, .uint8 3]]
    TitleTable := [[.uint32 0x52535045, .uint16 2]] }

/-- An aggregate with an 8-byte header and `n` new-title index entries, all
zero, every other table empty: `8 + 4 * n` bytes when serialized. -/
def newTitleIndexList (n : Nat) : List :=
  { emptyList (bareHeader 0 0) with NewTitleTable := List.replicate n 0 }

/-- An aggregate with an 8-byte header and `n` recommendation index entries,
all zero, every other table empty. -/
def recommendationIndexList (n : Nat) : List :=
  { emptyList (bareHeader 0 0) with RecommendationTable := List.replicate n 0 }

/-- An aggregate that enters the header protocol with `CRC32 = 1`. -/
def staleChecksumList : List := emptyList (bareHeader 0 1)

end dllist

/-! ## The worker pool of `MakeDownloadList` (lines 93-154)

The goroutines are modelled by interleaving: a state records where the main
goroutine and every worker stand, the number of elements buffered in the
`semaphore` channel and the `WaitGroup` counter; an `Action` is one atomic
step of one goroutine, and `step` returns `none` when that goroutine cannot
take the step in the given state (it is not at that statement, or it is
blocked there). `constants.Regions` is declared in another package and is a
parameter. -/

namespace dllist

/-- Capacity of the channel made by `make(chan struct{}, 3)` (line 95). -/
def semaphoreCap : Nat := 3

/-- The argument of `wg.Add(10)` (line 97). -/
def wgAdd : Int := 10

/-- The arguments one worker goroutine is started with. -/
abbrev Pair := constants.RegionMeta × Nat

/-- The `(region, language)` pairs in the order the two nested loops (lines
98-99) visit them. -/
def pairs : Slice constants.RegionMeta → Slice Pair
  | [] => []
  | region :: rest => region.Languages.map (fun language => (region, language)) ++ pairs rest

/-- Where a worker goroutine stands. -/
inductive Phase where
  /-- started by `go`, before the send `semaphore <- struct{}{}` (line 102) -/
  | spawned
  /-- after the send, inside lines 103-148: the build, holding a slot -/
  | building
  /-- after the receive `<-semaphore` (line 149), before the deferred `wg.Done()` -/
  | released
  /-- after `wg.Done()` -/
  | finished
  deriving DecidableEq

/-- Where the goroutine running `MakeDownloadList` stands. -/
inductive MainPhase where
  /-- in the loops of lines 98-152 -/
  | looping
  /-- in `wg.Wait()` (line 154) -/
  | waiting
  /-- `wg.Wait()` has returned -/
  | returned
  deriving DecidableEq

/-- State of the pool. -/
structure Pool where
  /-- pairs the loops have not reached yet -/
  pending : Slice Pair
  /-- the goroutines started so far, in start order -/
  workers : Slice (Pair × Phase)
  /-- number of elements in the buffer of `semaphore` -/
  semaphore : Nat
  /-- the `WaitGroup` counter -/
  wg : Int
  main : MainPhase
  /-- the process has ended through `log.Fatalf` or a panic -/
  crashed : Bool
  deriving DecidableEq

/-- One atomic step of one goroutine; `i` is the index of a worker in start
order. -/
inductive Action where
  /-- main: one iteration of the inner loop, the `go` statement -/
  | spawn
  /-- main: the loops are exhausted, `wg.Wait()` is entered -/
  | loopEnd
  /-- main: `wg.Wait()` returns -/
  | wgReturn
  /-- worker `i`: the send `semaphore <- struct{}{}` -/
  | acquire (i : Nat)
  /-- worker `i`: `checkError` meets an error during the build and `log.Fatalf` ends the process -/
  | fatal (i : Nat)
  /-- worker `i`: the build is through and the receive `<-semaphore` is done -/
  | release (i : Nat)
  /-- worker `i`: the deferred `wg.Done()` -/
  | done (i : Nat)
  deriving DecidableEq

/-- The state after `wg.Add(10)`, before the loops. -/
def Pool.init (regions : Slice constants.RegionMeta) : Pool :=
  { pending := pairs regions, workers := [], semaphore := 0, wg := wgAdd, main := .looping,
    crashed := false }

/-- Worker `i` moves to phase `ph`. -/
def Pool.setPhase (s : Pool) (i : Nat) (p : Pair) (ph : Phase) : Pool :=
  { s with workers := s.workers.set i (p, ph) }

/-- One step. A send on the buffered channel goes through only while the
buffer holds fewer than `semaphoreCap` elements, a receive only while it holds
one; `wg.Wait()` returns only while the counter is zero; `wg.Done()` panics
when it makes the counter negative. Nothing runs once the process has ended. -/
def step (s : Pool) (a : Action) : Option Pool :=
  if s.crashed then none else
  match a with
  | .spawn =>
    match s.main, s.pending with
    | .looping, p :: rest => some { s with pending := rest, workers := s.workers ++ [(p, .spawned)] }
    | _, _ => none
  | .loopEnd =>
    match s.main, s.pending with
    | .looping, [] => some { s with main := .waiting }
    | _, _ => none
  | .wgReturn =>
    match s.main with
    | .waiting => if s.wg = 0 then some { s with main := .returned } else none
    | _ => none
  | .acquire i =>
    match s.workers[i]? with
    | some (p, .spawned) =>
      if s.semaphore < semaphoreCap then
        some { s.setPhase i p .building with semaphore := s.semaphore + 1 }
      else none
    | _ => none
  | .fatal i =>
    match s.workers[i]? with
    | some (_, .building) => some { s with crashed := true }
    | _ => none
  | .release i =>
    match s.workers[i]? with
    | some (p, .building) =>
      if 0 < s.semaphore then
        some { s.setPhase i p .released with semaphore := s.semaphore - 1 }
      else none
    | _ => none
  | .done i =>
    match s.workers[i]? with
    | some (p, .released) =>
      some { s.setPhase i p .finished with wg := s.wg - 1, crashed := decide (s.wg - 1 < 0) }
    | _ => none

/-- Running a schedule: the actions one after the other; `none` when one of
them cannot be taken. -/
def run (s : Pool) : Slice Action → Option Pool
  | [] => some s
  | a :: rest =>
    match step s a with
    | some s' => run s' rest
    | none => none

/-- Number of workers in phase `ph`. -/
def countPhase (ph : Phase) (ws : Slice (Pair × Phase)) : Nat :=
  (ws.map (fun w => if w.2 = ph then 1 else 0)).sum

/-- Number of builds holding an admission slot: the workers between their send
on `semaphore` and their receive from it. -/
def Pool.holders (s : Pool) : Nat := countPhase .building s.workers

/-- Every pair has been given a worker and every worker has run `wg.Done()`. -/
def Pool.allFinished (s : Pool) : Prop :=
  s.pending = [] ∧ countPhase .finished s.workers = s.workers.length

/-- Steps a worker in a given phase still has to take. -/
def Phase.stepsLeft : Phase → Nat
  | .spawned => 3
  | .building => 2
  | .released => 1
  | .finished => 0

/-- Steps the main goroutine still has to take, its `go` statements apart. -/
def MainPhase.stepsLeft : MainPhase → Nat
  | .looping => 2
  | .waiting => 1
  | .returned => 0

/-- Number of steps left in a state: none once the process has ended, else one
more than those of the main goroutine, of the pairs not yet started (four
each) and of the workers. -/
def Pool.stepsLeft (s : Pool) : Nat :=
  if s.crashed then 0
  else 1 + s.main.stepsLeft + 4 * s.pending.length +
    (s.workers.map (fun w => w.2.stepsLeft)).sum

/-- Three regions with one, three and six languages: ten pairs. -/
def sampleRegions : Slice constants.RegionMeta :=
  [{ Region := 0, Languages := [0], RatingGroup := 0 },
   { Region := 1, Languages := [1, 3, 4], RatingGroup := 1 },
   { Region := 2, Languages := [1, 2, 3, 4, 5, 6], RatingGroup := 2 }]

/-- One region with one language: one pair. -/
def singleRegion : Slice constants.RegionMeta :=
  [{ Region := 0, Languages := [0], RatingGroup := 0 }]

/-- The schedule in which worker `i` runs from its send to its `wg.Done()`
without interruption. -/
def workerSchedule (i : Nat) : Slice Action :=
  [.acquire i, .release i, .done i]

/-- A schedule for `n` pairs: all workers are started, `wg.Wait()` is entered,
the workers run one after the other, `wg.Wait()` returns. -/
def sequentialSchedule (n : Nat) : Slice Action :=
  List.replicate n Action.spawn ++ [Action.loopEnd] ++
    (List.range n).flatMap workerSchedule ++ [Action.wgReturn]


/-- What holds in every state of the pool reached from `Pool.init regions`. -/
structure Pool.Inv (regions : Slice constants.RegionMeta) (s : Pool) : Prop where
  /-- the workers started so far and the pairs still to come are the pairs of the
  configuration, in loop order -/
  started : s.workers.map Prod.fst ++ s.pending = pairs regions
  /-- the channel buffer holds one element per worker between its send and its receive -/
  slots : countPhase .building s.workers = s.semaphore
  /-- the buffer never holds more than its capacity -/
  bounded : s.semaphore ≤ semaphoreCap
  /-- the counter is what `wg.Add` set minus the `wg.Done()` calls made -/
  counter : s.wg + (countPhase .finished s.workers : Int) = wgAdd
  /-- the loops are exhausted once `wg.Wait()` is entered -/
  looped : s.main ≠ .looping → s.pending = []
  /-- `wg.Wait()` has returned only after as many `wg.Done()` calls as were added -/
  waited : s.main = .returned → wgAdd ≤ (countPhase .finished s.workers : Int)

/-- One region with four languages: four pairs. -/
def fourLanguages : Slice constants.RegionMeta :=
  [{ Region := 1, Languages := [1, 3, 4, 5], RatingGroup := 1 }]

/-- Four workers started, the first three building, the fourth before its send. -/
def threeBuilding : Pool :=
  { pending := [],
    workers := [((⟨1, [1, 3, 4, 5], 1⟩, 1), .building), ((⟨1, [1, 3, 4, 5], 1⟩, 3), .building),
                ((⟨1, [1, 3, 4, 5], 1⟩, 4), .building), ((⟨1, [1, 3, 4, 5], 1⟩, 5), .spawned)],
    semaphore := 3, wg := 10, main := .looping, crashed := false }

/-- All pairs of `sampleRegions` built and `wg.Wait()` returned. -/
def allBuilt : Pool :=
  { pending := [], workers := (pairs sampleRegions).map (fun p => (p, Phase.finished)),
    semaphore := 0, wg := 0, main := .returned, crashed := false }

/-- The single pair of `singleRegion` built, `wg.Wait()` still waiting. -/
def singleBuilt : Pool :=
  { pending := [], workers := [((⟨0, [0], 0⟩, 0), .finished)],
    semaphore := 0, wg := 9, main := .waiting, crashed := false }

/-- One region with eleven languages: eleven pairs. -/
def elevenLanguages : Slice constants.RegionMeta :=
  [{ Region := 2, Languages := [0, 1, 2, 3, 4, 5, 6, 7, 8, 9, 10], RatingGroup := 2 }]

end dllist

/-! ## Lemmas on the encoders -/

namespace binary

theorem PutUint32_length (v : Nat) : (PutUint32 v).length = 4 := rfl

theorem Field.scalar_encode_length (f : Field) : f.encode.length = f.size := by
  cases f <;> rfl

theorem Record.encode_length (r : Record) : (Record.encode r).length = Record.size r := by
  induction r with
  | nil => rfl
  | cons f fs ih => simp [Record.encode, Record.size, Field.scalar_encode_length, ih]

theorem Record.encode_append (r s : Record) :
    Record.encode (r ++ s) = Record.encode r ++ Record.encode s := by
  induction r with
  | nil => rfl
  | cons f fs ih => simp [Record.encode, ih]

theorem Record.size_append (r s : Record) :
    Record.size (r ++ s) = Record.size r + Record.size s := by
  induction r with
  | nil => simp [Record.size]
  | cons f fs ih => simp [Record.size, ih, Nat.add_assoc]

theorem encodeUint32s_length (vs : Slice Nat) : (encodeUint32s vs).length = 4 * vs.length := by
  induction vs with
  | nil => rfl
  | cons v vs ih => simp [encodeUint32s, PutUint32_length, ih]; omega

end binary

namespace dllist

open binary

theorem bigEndian_length (w v : Nat) : (bigEndian w v).length = w := by
  induction w with
  | zero => rfl
  | succ w ih => simp [bigEndian, ih]

theorem fromBigEndian_aux (w v acc : Nat) :
    (bigEndian w v).foldl (fun a b => a * 256 + b) acc = acc * 256 ^ w + v % 256 ^ w := by
  induction w generalizing acc with
  | zero => simp [bigEndian, Nat.mod_one]
  | succ w ih =>
    simp only [bigEndian, List.foldl_cons, ih]
    rw [Nat.mod_pow_succ (x := v) (b := 256) (k := w)]
    ring

/-- Reading back what `bigEndian` wrote gives the value reduced to the width. -/
theorem fromBigEndian_bigEndian (w v : Nat) :
    fromBigEndian (bigEndian w v) = v % 256 ^ w := by
  simp [fromBigEndian, fromBigEndian_aux]

theorem Field.encode_eq_bigEndian (f : Field) :
    f.encode = bigEndian f.size (fieldValue f) := by
  cases f <;>
    simp [Field.encode, Field.size, fieldValue, bigEndian, PutUint16, PutUint32, PutUint64,
      Nat.shiftRight_eq_div_pow]

theorem Record.encode_eq_format (r : Record) : Record.encode r = formatRecord r := by
  induction r with
  | nil => rfl
  | cons f fs ih =>
    simp only [Record.encode, ih, formatRecord, List.map_cons, List.flatten_cons,
      Field.encode_eq_bigEndian]

theorem encodeStructs_eq_format (rs : Slice Record) : encodeStructs rs = formatTable rs := by
  induction rs with
  | nil => rfl
  | cons r rs ih =>
    simp only [encodeStructs, ih, formatTable, List.map_cons, List.flatten_cons,
      Record.encode_eq_format]

theorem encodeUint32s_eq_format (vs : Slice Nat) : encodeUint32s vs = formatIndexTable vs := by
  induction vs with
  | nil => rfl
  | cons v vs ih =>
    simp only [encodeUint32s, ih, formatIndexTable, List.map_cons, List.flatten_cons]
    simp [PutUint32, bigEndian, Nat.shiftRight_eq_div_pow]

theorem encodeStructs_length (rs : Slice Record) :
    (encodeStructs rs).length = tableSize rs := by
  induction rs with
  | nil => rfl
  | cons r rs ih => simp [encodeStructs, tableSize, Record.encode_length, ih] 

/-- `WriteAll` appends to the writer the header and the twelve tables in the
order of the calls. -/
theorem WriteAll_eq (l : List) (w : bytes.Buffer) :
    l.WriteAll w = w ++ (Record.encode l.Header.fields ++ encodeStructs l.RatingsTable ++
      encodeStructs l.TitleTypesTable ++ encodeStructs l.CompaniesTable ++
      encodeStructs l.TitleTable ++ encodeUint32s l.NewTitleTable ++
      encodeStructs l.VideoTable ++ encodeStructs l.NewVideoTable ++
      encodeStructs l.DemoTable ++ encodeUint32s l.RecommendationTable ++
      encodeStructs l.RecentRecommendationTable ++ encodeStructs l.PopularVideosTable ++
      encodeStructs l.DetailedRatingTable) := by
  simp [List.WriteAll, List.Write, binary.Write, bytes.Buffer.Write, Data.encode,
    List.append_assoc]


theorem Header.encode_fields (h : Header) :
    Record.encode h.fields = h.beforeChecksum ++ PutUint32 h.CRC32 ++ h.afterChecksum := by
  unfold Header.fields Header.beforeChecksum Header.afterChecksum
  cases h.crcFirst <;>
    simp [Record.encode_append, Record.encode, Field.encode, List.append_assoc]

theorem Header.beforeChecksum_length (h : Header) :
    h.beforeChecksum.length = h.checksumOffset := by
  unfold Header.beforeChecksum Header.checksumOffset
  cases h.crcFirst <;> simp [Record.encode_length, PutUint32_length]; omega

theorem Header.fields_size (h : Header) :
    Record.size h.fields = h.front.size + h.between.size + h.back.size + 8 := by
  unfold Header.fields
  cases h.crcFirst <;> simp [Record.size_append, Record.size, Field.size] <;> omega

theorem WriteAll_eq_header_tables (l : List) (w : bytes.Buffer) :
    l.WriteAll w = w ++ (Record.encode l.Header.fields ++ l.tableBytes) := by
  rw [WriteAll_eq]; simp [List.tableBytes, List.append_assoc]

theorem WriteAll_length (l : List) (w : bytes.Buffer) :
    (l.WriteAll w).length = w.length + l.naturalSize := by
  rw [WriteAll_eq]
  simp only [List.length_append, Record.encode_length, encodeStructs_length,
    encodeUint32s_length, List.naturalSize, Nat.add_assoc]

theorem withHeaderFields_naturalSize (l : List) (a b : Nat) :
    (l.withHeaderFields a b).naturalSize = l.naturalSize := by
  simp [List.naturalSize, List.withHeaderFields, Header.fields_size]

theorem take_drop_splice (pre mid post x : Bytes) (n : Nat) (hn : pre.length = n)
    (hm : mid.length = 4) :
    (pre ++ mid ++ post).take n ++ x ++ (pre ++ mid ++ post).drop (n + 4) = pre ++ x ++ post := by
  subst hn
  have h1 : (pre ++ mid ++ post).take pre.length = pre := by
    rw [List.append_assoc]; exact List.take_left' rfl
  have h2 : (pre ++ mid ++ post).drop (pre.length + 4) = post := by
    rw [List.append_assoc, List.drop_append]; exact List.drop_left' hm
  rw [h1, h2]

theorem drop_take_field (pre mid post : Bytes) (n : Nat) (hn : pre.length = n)
    (hm : mid.length = 4) :
    ((pre ++ mid ++ post).drop n).take 4 = mid := by
  subst hn
  have h1 : (pre ++ mid ++ post).drop pre.length = mid ++ post := by
    rw [List.append_assoc]; exact List.drop_left' rfl
  rw [h1]; exact List.take_left' hm

/-- Zeroing the checksum field of a serialization gives the serialization of
the same aggregate with `CRC32 = 0`. -/
theorem zeroChecksumField_WriteAll (l : List) :
    zeroChecksumField l.Header (l.WriteAll bytes.NewBuffer) =
      (l.withHeaderFields l.Header.Filesize 0).WriteAll bytes.NewBuffer := by
  rw [WriteAll_eq_header_tables, WriteAll_eq_header_tables, Header.encode_fields,
    Header.encode_fields]
  unfold zeroChecksumField
  simp only [bytes.NewBuffer, List.nil_append]
  rw [List.append_assoc (l.Header.beforeChecksum ++ _)]
  rw [take_drop_splice _ _ _ _ _ (Header.beforeChecksum_length _) (PutUint32_length _)]
  simp [List.withHeaderFields, Header.beforeChecksum, Header.afterChecksum, List.tableBytes,
    PutUint32]

/-- The bytes found at the checksum field of a serialization are the encoding
of `Header.CRC32`. -/
theorem checksumFieldBytes_WriteAll (l : List) :
    checksumFieldBytes l.Header (l.WriteAll bytes.NewBuffer) = PutUint32 l.Header.CRC32 := by
  rw [WriteAll_eq_header_tables, Header.encode_fields]
  unfold checksumFieldBytes
  simp only [bytes.NewBuffer, List.nil_append]
  rw [List.append_assoc (l.Header.beforeChecksum ++ _)]
  exact drop_take_field _ _ _ _ (Header.beforeChecksum_length _) (PutUint32_length _)

theorem headerProtocol_pass1 (l : List) :
    (MakeDownloadList.headerProtocol l).pass1 = l.WriteAll bytes.NewBuffer := rfl

theorem headerProtocol_pass2 (l : List) :
    (MakeDownloadList.headerProtocol l).pass2 =
      (l.withHeaderFields ((l.WriteAll bytes.NewBuffer).Len % 2 ^ 32) l.Header.CRC32).WriteAll
        bytes.NewBuffer := rfl

theorem headerProtocol_list (l : List) :
    (MakeDownloadList.headerProtocol l).list =
      l.withHeaderFields ((l.WriteAll bytes.NewBuffer).Len % 2 ^ 32)
        (crc32.Checksum (MakeDownloadList.headerProtocol l).pass2
          (crc32.MakeTable crc32.IEEE)) := rfl

theorem headerProtocol_pass3 (l : List) :
    (MakeDownloadList.headerProtocol l).pass3 =
      (MakeDownloadList.headerProtocol l).list.WriteAll bytes.NewBuffer := rfl

theorem headerProtocol_pass3_length (l : List) :
    (MakeDownloadList.headerProtocol l).pass3.length = l.naturalSize := by
  rw [headerProtocol_pass3, headerProtocol_list, WriteAll_length, withHeaderFields_naturalSize]
  simp [bytes.NewBuffer]

theorem headerProtocol_Filesize (l : List) :
    (MakeDownloadList.headerProtocol l).list.Header.Filesize = l.naturalSize % 2 ^ 32 := by
  rw [headerProtocol_list]
  simp [List.withHeaderFields, bytes.Buffer.Len, WriteAll_length, bytes.NewBuffer]


/-! ## Sanity checks of the embedding on concrete inputs -/

/-- The CRC-32/IEEE check value: the checksum of the ASCII string `123456789`. -/
theorem crc32_check_value :
    crc32.Checksum [49, 50, 51, 52, 53, 54, 55, 56, 57] (crc32.MakeTable crc32.IEEE)
      = 0xcbf43926 := by decide

/-- The final output of the header protocol on `sampleList`: 28 bytes, with
`Filesize = 28` at offset 4 and the checksum at offset 8. -/
theorem sampleList_final_output :
    (MakeDownloadList.headerProtocol sampleList).list.Header.Filesize = 28 ∧
    (MakeDownloadList.headerProtocol sampleList).pass3.take 8 = [0, 0, 6, 0, 0, 0, 0, 28] ∧
    (MakeDownloadList.headerProtocol sampleList).pass3.drop 12 =
      [0, 0, 0, 1, 8, 3, 0x52, 0x53, 0x50, 0x45, 0, 2, 0, 0, 0, 5] := by
  decide

theorem newTitleIndexList_naturalSize (n : Nat) :
    (newTitleIndexList n).naturalSize = 8 + 4 * n := by
  simp [List.naturalSize, newTitleIndexList, emptyList, bareHeader, Header.fields_size,
    tableSize, Record.size, Field.size]

theorem recommendationIndexList_naturalSize (n : Nat) :
    (recommendationIndexList n).naturalSize = 8 + 4 * n := by
  simp [List.naturalSize, recommendationIndexList, emptyList, bareHeader, Header.fields_size,
    tableSize, Record.size, Field.size]

/-! ## The serializer and the header protocol -/

/-- Claim C1: for every aggregate whose header checksum field is zero when the
header protocol starts, setting the bytes of the checksum field of the final
serialized output to zero and computing CRC-32/IEEE over the result gives
exactly the value the protocol stored in `Header.CRC32`. -/
theorem checksum_reproduced_after_zeroing (l : List) (h : l.Header.CRC32 = 0) :
    crc32.Checksum
        (zeroChecksumField (MakeDownloadList.headerProtocol l).list.Header
          (MakeDownloadList.headerProtocol l).pass3.Bytes)
        (crc32.MakeTable crc32.IEEE)
      = (MakeDownloadList.headerProtocol l).list.Header.CRC32 := by
  have hz : zeroChecksumField (MakeDownloadList.headerProtocol l).list.Header
      (MakeDownloadList.headerProtocol l).pass3.Bytes =
      (MakeDownloadList.headerProtocol l).pass2 := by
    rw [bytes.Buffer.Bytes, headerProtocol_pass3, zeroChecksumField_WriteAll,
      headerProtocol_pass2, headerProtocol_list, ← h]
    rfl
  rw [hz]
  rfl

/-- Witness for C1 on `sampleList`, whose header enters the protocol with
`CRC32 = 0`. -/
theorem checksum_reproduced_after_zeroing_witness :
    sampleList.Header.CRC32 = 0 ∧
    crc32.Checksum
        (zeroChecksumField (MakeDownloadList.headerProtocol sampleList).list.Header
          (MakeDownloadList.headerProtocol sampleList).pass3.Bytes)
        (crc32.MakeTable crc32.IEEE)
      = (MakeDownloadList.headerProtocol sampleList).list.Header.CRC32 :=
  ⟨rfl, checksum_reproduced_after_zeroing sampleList rfl⟩

/-- Claim C2 as stated fails: for the aggregate with `2 ^ 30` new-title index
entries the final output has `2 ^ 32 + 8` bytes and `Header.Filesize` is not
that length. -/
theorem filesize_differs_on_huge_aggregate :
    (MakeDownloadList.headerProtocol (newTitleIndexList (2 ^ 30))).list.Header.Filesize ≠
      (MakeDownloadList.headerProtocol (newTitleIndexList (2 ^ 30))).pass3.Len := by
  rw [headerProtocol_Filesize, bytes.Buffer.Len, headerProtocol_pass3_length,
    newTitleIndexList_naturalSize]
  norm_num

/-- Claim C2, amended: for every aggregate whose serialized length is below
`2 ^ 32`, after the header protocol `Header.Filesize` equals the exact byte
length of the final serialized output, which is the size of the header plus the
sizes of all table entries; with one rating record, one title record and every
other table empty it is the header size plus the two record sizes. -/
theorem filesize_is_final_length (l : List)
    (h : (l.WriteAll bytes.NewBuffer).Len < 2 ^ 32) :
    (MakeDownloadList.headerProtocol l).list.Header.Filesize =
        (MakeDownloadList.headerProtocol l).pass3.Len ∧
    (MakeDownloadList.headerProtocol l).pass3.Len = l.naturalSize ∧
    (∀ r t, l.RatingsTable = [r] → l.TitleTable = [t] → l.TitleTypesTable = [] →
      l.CompaniesTable = [] → l.NewTitleTable = [] → l.VideoTable = [] →
      l.NewVideoTable = [] → l.DemoTable = [] → l.RecommendationTable = [] →
      l.RecentRecommendationTable = [] → l.PopularVideosTable = [] →
      l.DetailedRatingTable = [] →
      (MakeDownloadList.headerProtocol l).list.Header.Filesize =
        Record.size l.Header.fields + Record.size r + Record.size t) := by
  have hlen : l.naturalSize < 2 ^ 32 := by
    simpa [bytes.Buffer.Len, WriteAll_length, bytes.NewBuffer] using h
  have hF : (MakeDownloadList.headerProtocol l).list.Header.Filesize = l.naturalSize := by
    rw [headerProtocol_Filesize, Nat.mod_eq_of_lt hlen]
  refine ⟨?_, ?_, ?_⟩
  · rw [hF, bytes.Buffer.Len, headerProtocol_pass3_length]
  · rw [bytes.Buffer.Len, headerProtocol_pass3_length]
  · intro r t h1 h2 h3 h4 h5 h6 h7 h8 h9 h10 h11 h12
    rw [hF]
    simp [List.naturalSize, h1, h2, h3, h4, h5, h6, h7, h8, h9, h10, h11, h12, tableSize]

/-- Witness for C2 (amended) on the scenario aggregate: a 16-byte header, a
2-byte rating record and a 6-byte title record; `Filesize` is their sum and the
length of the final output. -/
theorem filesize_is_final_length_witness :
    (scenarioList.WriteAll bytes.NewBuffer).Len < 2 ^ 32 ∧
    (MakeDownloadList.headerProtocol scenarioList).list.Header.Filesize =
      Record.size scenarioList.Header.fields + Record.size [.uint8 8, .uint8 3] +
        Record.size [.uint32 0x52535045, .uint16 2] ∧
    (MakeDownloadList.headerProtocol scenarioList).list.Header.Filesize =
      (MakeDownloadList.headerProtocol scenarioList).pass3.Len :=
  ⟨by decide,
   (filesize_is_final_length scenarioList (by decide)).2.2 _ _ rfl rfl rfl rfl rfl rfl rfl rfl
     rfl rfl rfl rfl,
   (filesize_is_final_length scenarioList (by decide)).1⟩


/-- Claim C3: the three serializations of the header protocol, each written
into the buffer after it has been reset, have the same byte length; changing
the content of the `Filesize` and `CRC32` fields never changes the length of
what `WriteAll` writes. -/
theorem pass_lengths_equal (l : List) :
    (MakeDownloadList.headerProtocol l).pass1.Len =
        (MakeDownloadList.headerProtocol l).pass2.Len ∧
    (MakeDownloadList.headerProtocol l).pass2.Len =
        (MakeDownloadList.headerProtocol l).pass3.Len ∧
    (∀ (filesize crc : Nat) (w : bytes.Buffer),
      ((l.withHeaderFields filesize crc).WriteAll w.Reset).Len = (l.WriteAll w.Reset).Len) := by
  refine ⟨?_, ?_, ?_⟩
  · rw [headerProtocol_pass1, headerProtocol_pass2]
    simp only [bytes.Buffer.Len, WriteAll_length, withHeaderFields_naturalSize]
  · rw [headerProtocol_pass2, headerProtocol_pass3, headerProtocol_list]
    simp only [bytes.Buffer.Len, WriteAll_length, withHeaderFields_naturalSize]
  · intro filesize crc w
    simp only [bytes.Buffer.Len, WriteAll_length, withHeaderFields_naturalSize]

/-- Claim C4: what `WriteAll` appends to the writer is exactly the
concatenation, in this order, of the big-endian fixed-width encodings of
`Header`, `RatingsTable`, `TitleTypesTable`, `CompaniesTable`, `TitleTable`,
`NewTitleTable`, `VideoTable`, `NewVideoTable`, `DemoTable`,
`RecommendationTable`, `RecentRecommendationTable`, `PopularVideosTable` and
`DetailedRatingTable`, each table being its records' encodings in slice order
(four big-endian bytes per entry for the two `uint32` index tables); the output
is as long as the records themselves, so nothing is written between or inside
tables. -/
theorem WriteAll_is_ordered_concatenation (l : List) (w : bytes.Buffer) :
    l.WriteAll w = w ++ (formatRecord l.Header.fields ++ formatTable l.RatingsTable ++
      formatTable l.TitleTypesTable ++ formatTable l.CompaniesTable ++
      formatTable l.TitleTable ++ formatIndexTable l.NewTitleTable ++
      formatTable l.VideoTable ++ formatTable l.NewVideoTable ++
      formatTable l.DemoTable ++ formatIndexTable l.RecommendationTable ++
      formatTable l.RecentRecommendationTable ++ formatTable l.PopularVideosTable ++
      formatTable l.DetailedRatingTable) ∧
    (l.WriteAll bytes.NewBuffer).Len =
      Record.size l.Header.fields + tableSize l.RatingsTable + tableSize l.TitleTypesTable +
      tableSize l.CompaniesTable + tableSize l.TitleTable + 4 * l.NewTitleTable.length +
      tableSize l.VideoTable + tableSize l.NewVideoTable + tableSize l.DemoTable +
      4 * l.RecommendationTable.length + tableSize l.RecentRecommendationTable +
      tableSize l.PopularVideosTable + tableSize l.DetailedRatingTable := by
  constructor
  · rw [WriteAll_eq]
    simp only [Record.encode_eq_format, encodeStructs_eq_format, encodeUint32s_eq_format]
  · simp [bytes.Buffer.Len, WriteAll_length, bytes.NewBuffer, List.naturalSize]

/-- Claim C5: calling `WriteAll` twice on the same aggregate, each time into an
emptied buffer, yields byte-identical output; the output is determined by the
header and the twelve tables alone. -/
theorem WriteAll_deterministic (l : List) (w : bytes.Buffer) :
    l.WriteAll (l.WriteAll w.Reset).Reset = l.WriteAll w.Reset ∧
    (∀ l' : List, l'.Header = l.Header → l'.RatingsTable = l.RatingsTable →
      l'.TitleTypesTable = l.TitleTypesTable → l'.CompaniesTable = l.CompaniesTable →
      l'.TitleTable = l.TitleTable → l'.NewTitleTable = l.NewTitleTable →
      l'.VideoTable = l.VideoTable → l'.NewVideoTable = l.NewVideoTable →
      l'.DemoTable = l.DemoTable → l'.RecommendationTable = l.RecommendationTable →
      l'.RecentRecommendationTable = l.RecentRecommendationTable →
      l'.PopularVideosTable = l.PopularVideosTable →
      l'.DetailedRatingTable = l.DetailedRatingTable →
      l'.WriteAll bytes.NewBuffer = l.WriteAll bytes.NewBuffer) := by
  refine ⟨rfl, ?_⟩
  intro l' h0 h1 h2 h3 h4 h5 h6 h7 h8 h9 h10 h11 h12
  rw [WriteAll_eq, WriteAll_eq, h0, h1, h2, h3, h4, h5, h6, h7, h8, h9, h10, h11, h12]

/-- Claim C8 as stated fails: for the aggregate with `2 ^ 30` recommendation
index entries the protocol runs to its final output of `2 ^ 32 + 8` bytes and
the size pass has stored the reduced value 8 in `Header.Filesize`. -/
theorem filesize_silently_reduced :
    (MakeDownloadList.headerProtocol (recommendationIndexList (2 ^ 30))).pass3.Len
        = 2 ^ 32 + 8 ∧
    (MakeDownloadList.headerProtocol (recommendationIndexList (2 ^ 30))).list.Header.Filesize
        = 8 := by
  rw [headerProtocol_Filesize, bytes.Buffer.Len, headerProtocol_pass3_length,
    recommendationIndexList_naturalSize]
  norm_num

/-- Claim C8, amended: the size pass stores the serialized byte length reduced
modulo `2 ^ 32` in `Header.Filesize`, whatever the length, and the protocol
goes on to its final output; the stored value is the exact length if and only
if the length is below `2 ^ 32`. -/
theorem filesize_is_length_mod_2_32 (l : List) :
    (MakeDownloadList.headerProtocol l).list.Header.Filesize =
        (MakeDownloadList.headerProtocol l).pass1.Len % 2 ^ 32 ∧
    (MakeDownloadList.headerProtocol l).pass3 =
        (MakeDownloadList.headerProtocol l).list.WriteAll bytes.NewBuffer ∧
    ((MakeDownloadList.headerProtocol l).list.Header.Filesize =
        (MakeDownloadList.headerProtocol l).pass3.Len ↔
      (MakeDownloadList.headerProtocol l).pass3.Len < 2 ^ 32) := by
  refine ⟨rfl, rfl, ?_⟩
  rw [headerProtocol_Filesize, bytes.Buffer.Len, headerProtocol_pass3_length]
  constructor
  · intro h
    rw [← h]
    exact Nat.mod_lt _ (by norm_num)
  · intro h
    exact Nat.mod_eq_of_lt h

/-- Claim C9: for a `List` with a non-nil image buffer, `GetCurrentSize`
returns the byte length of the output of `WriteAll` plus the number of bytes in
`imageBuffer`, modulo `2 ^ 32`; when that sum is below `2 ^ 32` it equals the
value the header protocol stores in `Header.Filesize` exactly when the image
buffer is empty. -/
theorem GetCurrentSize_spec (l : List) (img : bytes.Buffer) (h : l.imageBuffer = some img) :
    l.GetCurrentSize = some (((l.WriteAll bytes.NewBuffer).Len + img.Len) % 2 ^ 32) ∧
    ((l.WriteAll bytes.NewBuffer).Len + img.Len < 2 ^ 32 →
      (l.GetCurrentSize = some (MakeDownloadList.headerProtocol l).list.Header.Filesize ↔
        img.Len = 0)) := by
  have hg : l.GetCurrentSize = some (((l.WriteAll bytes.NewBuffer).Len + img.Len) % 2 ^ 32) := by
    simp [List.GetCurrentSize, h, bytes.Buffer.Len, bytes.Buffer.Write, bytes.Buffer.Bytes]
  refine ⟨hg, ?_⟩
  intro hlt
  rw [hg, headerProtocol_Filesize, Nat.mod_eq_of_lt hlt]
  have hn : (l.WriteAll bytes.NewBuffer).Len = l.naturalSize := by
    simp [bytes.Buffer.Len, WriteAll_length, bytes.NewBuffer]
  rw [hn] at hlt ⊢
  rw [Nat.mod_eq_of_lt (by omega)]
  constructor
  · intro he
    have := Option.some.inj he
    omega
  · intro he
    rw [he]; rfl

/-- Witness for C9 on `sampleList`: 28 serialized bytes and 3 bytes of image
data. -/
theorem GetCurrentSize_spec_witness :
    sampleList.imageBuffer = some [1, 2, 3] ∧
    sampleList.GetCurrentSize = some 31 ∧
    sampleList.GetCurrentSize =
      some (((sampleList.WriteAll bytes.NewBuffer).Len + bytes.Buffer.Len [1, 2, 3]) % 2 ^ 32) ∧
    (sampleList.GetCurrentSize =
        some (MakeDownloadList.headerProtocol sampleList).list.Header.Filesize ↔
      bytes.Buffer.Len [1, 2, 3] = 0) :=
  ⟨rfl, by decide, (GetCurrentSize_spec sampleList [1, 2, 3] rfl).1,
   (GetCurrentSize_spec sampleList [1, 2, 3] rfl).2 (by decide)⟩

/-- The header protocol traced on `staleChecksumList` (8-byte header, entry
`CRC32 = 1`): the second serialization, the checksum stored, the final output,
the final output with its checksum field zeroed and the CRC-32/IEEE of that. -/
theorem staleChecksumList_trace :
    (MakeDownloadList.headerProtocol staleChecksumList).pass2 = [0, 0, 0, 8, 0, 0, 0, 1] ∧
    (MakeDownloadList.headerProtocol staleChecksumList).pass3 =
      [0, 0, 0, 8, 34, 85, 164, 62] ∧
    (MakeDownloadList.headerProtocol staleChecksumList).list.Header.CRC32 = 576037950 ∧
    zeroChecksumField (MakeDownloadList.headerProtocol staleChecksumList).list.Header
        (MakeDownloadList.headerProtocol staleChecksumList).pass3.Bytes =
      [0, 0, 0, 8, 0, 0, 0, 0] ∧
    crc32.Checksum [0, 0, 0, 8, 0, 0, 0, 0] (crc32.MakeTable crc32.IEEE) = 1431475368 := by
  decide!

/-- Claim C10: the header protocol never clears the checksum field: the value
it stores in `Header.CRC32` is the CRC-32/IEEE of the second serialization, in
which `Filesize` is the length and the checksum field still holds its entry
value; and for an aggregate entering with a non-zero `Header.CRC32` the stored
checksum is not the CRC-32/IEEE of the final output with its checksum field
zeroed. -/
theorem checksum_covers_entry_value :
    (∀ l : List,
      (MakeDownloadList.headerProtocol l).list.Header.CRC32 =
          crc32.Checksum (MakeDownloadList.headerProtocol l).pass2.Bytes
            (crc32.MakeTable crc32.IEEE) ∧
      (MakeDownloadList.headerProtocol l).pass2 =
          (l.withHeaderFields ((MakeDownloadList.headerProtocol l).pass1.Len % 2 ^ 32)
            l.Header.CRC32).WriteAll bytes.NewBuffer ∧
      checksumFieldBytes l.Header (MakeDownloadList.headerProtocol l).pass2 =
          PutUint32 l.Header.CRC32) ∧
    (∃ l : List, l.Header.CRC32 ≠ 0 ∧
      crc32.Checksum
          (zeroChecksumField (MakeDownloadList.headerProtocol l).list.Header
            (MakeDownloadList.headerProtocol l).pass3.Bytes)
          (crc32.MakeTable crc32.IEEE)
        ≠ (MakeDownloadList.headerProtocol l).list.Header.CRC32) := by
  constructor
  · intro l
    refine ⟨rfl, rfl, ?_⟩
    rw [headerProtocol_pass2]
    generalize (l.WriteAll bytes.NewBuffer).Len % 2 ^ 32 = filesize
    have h := checksumFieldBytes_WriteAll (l.withHeaderFields filesize l.Header.CRC32)
    simpa [checksumFieldBytes, Header.checksumOffset, List.withHeaderFields] using h
  · refine ⟨staleChecksumList, by decide, ?_⟩
    rw [staleChecksumList_trace.2.2.1, staleChecksumList_trace.2.2.2.1,
      staleChecksumList_trace.2.2.2.2]
    decide


/-! ## Lemmas on the worker pool -/

theorem sum_map_set {α : Type} (f : α → Nat) (ws : Slice α) (i : Nat) (w w' : α)
    (h : ws[i]? = some w) :
    ((ws.set i w').map f).sum + f w = (ws.map f).sum + f w' := by
  induction ws generalizing i with
  | nil => simp at h
  | cons x xs ih =>
    cases i with
    | zero =>
      simp at h
      subst h
      simp only [List.set, List.map_cons, List.sum_cons]
      omega
    | succ j =>
      simp at h
      have := ih j h
      simp only [List.set, List.map_cons, List.sum_cons]
      omega

theorem map_fst_set (ws : Slice (Pair × Phase)) (i : Nat) (p : Pair) (ph ph' : Phase)
    (h : ws[i]? = some (p, ph)) :
    (ws.set i (p, ph')).map Prod.fst = ws.map Prod.fst := by
  induction ws generalizing i with
  | nil => simp at h
  | cons x xs ih =>
    cases i with
    | zero =>
      simp at h
      subst h
      simp [List.set]
    | succ j =>
      simp at h
      simp [List.set, ih j h]

theorem countPhase_set (q : Phase) (ws : Slice (Pair × Phase)) (i : Nat) (p : Pair)
    (ph ph' : Phase) (h : ws[i]? = some (p, ph)) :
    countPhase q (ws.set i (p, ph')) + (if ph = q then 1 else 0) =
      countPhase q ws + (if ph' = q then 1 else 0) := by
  have := sum_map_set (fun w : Pair × Phase => if w.2 = q then 1 else 0) ws i (p, ph) (p, ph') h
  simpa [countPhase] using this

theorem countPhase_append (q : Phase) (ws vs : Slice (Pair × Phase)) :
    countPhase q (ws ++ vs) = countPhase q ws + countPhase q vs := by
  simp [countPhase]

theorem countPhase_le_length (q : Phase) (ws : Slice (Pair × Phase)) :
    countPhase q ws ≤ ws.length := by
  induction ws with
  | nil => simp [countPhase]
  | cons w ws ih =>
    simp only [countPhase, List.map_cons, List.sum_cons, List.length_cons] at ih ⊢
    split <;> omega

/-- A phase that is counted occurs at some index. -/
theorem exists_phase_of_count (ws : Slice (Pair × Phase)) (q : Phase)
    (h : 0 < countPhase q ws) : ∃ (i : Nat) (p : Pair), ws[i]? = some (p, q) := by
  induction ws with
  | nil => simp [countPhase] at h
  | cons w ws ih =>
    by_cases hw : w.2 = q
    · exact ⟨0, w.1, by simp [← hw]⟩
    · have h' : 0 < countPhase q ws := by
        simpa [countPhase, hw] using h
      obtain ⟨i, p, hi⟩ := ih h'
      exact ⟨i + 1, p, by simpa using hi⟩

theorem count_phases_total (ws : Slice (Pair × Phase)) :
    countPhase .spawned ws + countPhase .building ws + countPhase .released ws +
      countPhase .finished ws = ws.length := by
  induction ws with
  | nil => simp [countPhase]
  | cons w ws ih =>
    obtain ⟨p, ph⟩ := w
    simp only [countPhase, List.map_cons, List.sum_cons, List.length_cons] at ih ⊢
    cases ph <;> simp <;> omega


theorem step_crashed (s : Pool) (a : Action) (h : s.crashed = true) : step s a = none := by
  simp [step, h]

theorem step_spawn_iff (s s' : Pool) :
    step s .spawn = some s' ↔ s.crashed = false ∧ s.main = .looping ∧
      ∃ p rest, s.pending = p :: rest ∧
        s' = { s with pending := rest, workers := s.workers ++ [(p, .spawned)] } := by
  unfold step
  cases hc : s.crashed
  · cases hm : s.main <;> cases hp : s.pending <;> simp
    constructor
    · intro h
      exact ⟨_, _, _, ⟨rfl, rfl⟩, h.symm⟩
    · rintro ⟨a, b, rest, ⟨rfl, rfl⟩, h⟩
      exact h.symm
  · simp

theorem step_loopEnd_iff (s s' : Pool) :
    step s .loopEnd = some s' ↔ s.crashed = false ∧ s.main = .looping ∧ s.pending = [] ∧
      s' = { s with main := .waiting } := by
  unfold step
  cases hc : s.crashed
  · cases hm : s.main <;> cases hp : s.pending <;> simp
    exact eq_comm
  · simp

theorem step_wgReturn_iff (s s' : Pool) :
    step s .wgReturn = some s' ↔ s.crashed = false ∧ s.main = .waiting ∧ s.wg = 0 ∧
      s' = { s with main := .returned } := by
  unfold step
  cases hc : s.crashed
  · cases hm : s.main <;> simp
    intro _
    exact eq_comm
  · simp

theorem step_acquire_iff (s s' : Pool) (i : Nat) :
    step s (.acquire i) = some s' ↔ s.crashed = false ∧
      ∃ p, s.workers[i]? = some (p, .spawned) ∧ s.semaphore < semaphoreCap ∧
        s' = { s.setPhase i p .building with semaphore := s.semaphore + 1 } := by
  unfold step
  cases hc : s.crashed
  · rcases hw : s.workers[i]? with _ | ⟨p, ph⟩
    · simp [hw]
    · cases ph <;> simp [hw]
      intro _
      exact eq_comm
  · simp

theorem step_fatal_iff (s s' : Pool) (i : Nat) :
    step s (.fatal i) = some s' ↔ s.crashed = false ∧
      ∃ p, s.workers[i]? = some (p, .building) ∧ s' = { s with crashed := true } := by
  unfold step
  cases hc : s.crashed
  · rcases hw : s.workers[i]? with _ | ⟨p, ph⟩
    · simp [hw]
    · cases ph <;> simp [hw]
      exact eq_comm
  · simp

theorem step_release_iff (s s' : Pool) (i : Nat) :
    step s (.release i) = some s' ↔ s.crashed = false ∧
      ∃ p, s.workers[i]? = some (p, .building) ∧ 0 < s.semaphore ∧
        s' = { s.setPhase i p .released with semaphore := s.semaphore - 1 } := by
  unfold step
  cases hc : s.crashed
  · rcases hw : s.workers[i]? with _ | ⟨p, ph⟩
    · simp [hw]
    · cases ph <;> simp [hw]
      intro _
      exact eq_comm
  · simp

theorem step_done_iff (s s' : Pool) (i : Nat) :
    step s (.done i) = some s' ↔ s.crashed = false ∧
      ∃ p, s.workers[i]? = some (p, .released) ∧
        s' = { s.setPhase i p .finished with
                wg := s.wg - 1, crashed := decide (s.wg - 1 < 0) } := by
  unfold step
  cases hc : s.crashed
  · rcases hw : s.workers[i]? with _ | ⟨p, ph⟩
    · simp [hw]
    · cases ph <;> simp [hw]
      exact eq_comm
  · simp


theorem Inv_init (regions : Slice constants.RegionMeta) : Pool.Inv regions (Pool.init regions) where
  started := by simp [Pool.init]
  slots := by simp [Pool.init, countPhase]
  bounded := by simp [Pool.init]
  counter := by simp [Pool.init, countPhase]
  looped := by simp [Pool.init]
  waited := by simp [Pool.init]

theorem Inv_step (regions : Slice constants.RegionMeta) (s s' : Pool) (a : Action)
    (hI : Pool.Inv regions s) (h : step s a = some s') : Pool.Inv regions s' := by
  obtain ⟨h1, h2, h3, h4, h5, h6⟩ := hI
  cases a with
  | spawn =>
    obtain ⟨_, hm, p, rest, hp, rfl⟩ := (step_spawn_iff s s').1 h
    refine ⟨?_, ?_, h3, ?_, ?_, ?_⟩
    · simpa [hp] using h1
    · simpa [countPhase_append, countPhase] using h2
    · simpa [countPhase_append, countPhase] using h4
    · intro hne; exact absurd hm hne
    · intro hr; simp [hm] at hr
  | loopEnd =>
    obtain ⟨_, hm, hp, rfl⟩ := (step_loopEnd_iff s s').1 h
    exact ⟨h1, h2, h3, h4, fun _ => hp, fun hr => by simp at hr⟩
  | wgReturn =>
    obtain ⟨_, hm, hw, rfl⟩ := (step_wgReturn_iff s s').1 h
    refine ⟨h1, h2, h3, h4, fun _ => h5 (by simp [hm]), fun _ => ?_⟩
    have h4' : s.wg + (countPhase .finished s.workers : Int) = wgAdd := h4
    rw [hw] at h4'
    show wgAdd ≤ (countPhase .finished s.workers : Int)
    omega
  | acquire i =>
    obtain ⟨_, p, hw, hlt, rfl⟩ := (step_acquire_iff s s' i).1 h
    have hb := countPhase_set .building s.workers i p .spawned .building hw
    have hf := countPhase_set .finished s.workers i p .spawned .building hw
    simp at hb hf
    refine ⟨?_, ?_, ?_, ?_, h5, ?_⟩
    · simpa [Pool.setPhase, map_fst_set _ _ _ _ _ hw] using h1
    · simp only [Pool.setPhase]; omega
    · exact hlt
    · simp only [Pool.setPhase, hf]; exact h4
    · simp only [Pool.setPhase, hf]; exact h6
  | fatal i =>
    obtain ⟨_, p, hw, rfl⟩ := (step_fatal_iff s s' i).1 h
    exact ⟨h1, h2, h3, h4, h5, h6⟩
  | release i =>
    obtain ⟨_, p, hw, hpos, rfl⟩ := (step_release_iff s s' i).1 h
    have hb := countPhase_set .building s.workers i p .building .released hw
    have hf := countPhase_set .finished s.workers i p .building .released hw
    simp at hb hf
    refine ⟨?_, ?_, ?_, ?_, h5, ?_⟩
    · simpa [Pool.setPhase, map_fst_set _ _ _ _ _ hw] using h1
    · simp only [Pool.setPhase]; omega
    · show s.semaphore - 1 ≤ semaphoreCap
      omega
    · simp only [Pool.setPhase, hf]; exact h4
    · simp only [Pool.setPhase, hf]; exact h6
  | done i =>
    obtain ⟨_, p, hw, rfl⟩ := (step_done_iff s s' i).1 h
    have hb := countPhase_set .building s.workers i p .released .finished hw
    have hf := countPhase_set .finished s.workers i p .released .finished hw
    simp at hb hf
    refine ⟨?_, ?_, h3, ?_, h5, ?_⟩
    · simpa [Pool.setPhase, map_fst_set _ _ _ _ _ hw] using h1
    · simp only [Pool.setPhase, hb]; exact h2
    · simp only [Pool.setPhase, hf]
      have h4' : s.wg + (countPhase .finished s.workers : Int) = wgAdd := h4
      push_cast
      omega
    · intro hr
      have := h6 hr
      simp only [Pool.setPhase, hf]
      push_cast
      omega

theorem Inv_run (regions : Slice constants.RegionMeta) (sched : Slice Action) (s s' : Pool)
    (hI : Pool.Inv regions s) (h : run s sched = some s') : Pool.Inv regions s' := by
  induction sched generalizing s with
  | nil =>
    simp [run] at h
    subst h
    exact hI
  | cons a rest ih =>
    simp only [run] at h
    cases hs : step s a with
    | none => simp [hs] at h
    | some t =>
      simp only [hs] at h
      exact ih t (Inv_step regions s t a hI hs) h

theorem Inv_reachable (regions : Slice constants.RegionMeta) (sched : Slice Action) (s : Pool)
    (h : run (Pool.init regions) sched = some s) : Pool.Inv regions s :=
  Inv_run regions sched _ s (Inv_init regions) h


theorem stepsLeft_sum_set (ws : Slice (Pair × Phase)) (i : Nat) (p : Pair) (ph ph' : Phase)
    (h : ws[i]? = some (p, ph)) :
    ((ws.set i (p, ph')).map (fun w => w.2.stepsLeft)).sum + ph.stepsLeft =
      (ws.map (fun w => w.2.stepsLeft)).sum + ph'.stepsLeft :=
  sum_map_set (fun w : Pair × Phase => w.2.stepsLeft) ws i (p, ph) (p, ph') h

theorem stepsLeft_step (s s' : Pool) (a : Action) (h : step s a = some s') :
    s'.stepsLeft < s.stepsLeft := by
  have e3 : Phase.spawned.stepsLeft = 3 := rfl
  have e2 : Phase.building.stepsLeft = 2 := rfl
  have e1 : Phase.released.stepsLeft = 1 := rfl
  have e0 : Phase.finished.stepsLeft = 0 := rfl
  cases a with
  | spawn =>
    obtain ⟨hc, hm, p, rest, hp, rfl⟩ := (step_spawn_iff s s').1 h
    simp [Pool.stepsLeft, hc, hp, Phase.stepsLeft]
    omega
  | loopEnd =>
    obtain ⟨hc, hm, hp, rfl⟩ := (step_loopEnd_iff s s').1 h
    simp [Pool.stepsLeft, hc, hm, MainPhase.stepsLeft]
  | wgReturn =>
    obtain ⟨hc, hm, hw, rfl⟩ := (step_wgReturn_iff s s').1 h
    simp [Pool.stepsLeft, hc, hm, MainPhase.stepsLeft]
  | acquire i =>
    obtain ⟨hc, p, hw, hlt, rfl⟩ := (step_acquire_iff s s' i).1 h
    have := stepsLeft_sum_set s.workers i p .spawned .building hw
    rw [e3, e2] at this
    simp only [Pool.stepsLeft, Pool.setPhase, hc, Bool.false_eq_true, if_false]
    omega
  | fatal i =>
    obtain ⟨hc, p, hw, rfl⟩ := (step_fatal_iff s s' i).1 h
    simp only [Pool.stepsLeft, hc, Bool.false_eq_true, if_false, if_true]
    omega
  | release i =>
    obtain ⟨hc, p, hw, hpos, rfl⟩ := (step_release_iff s s' i).1 h
    have := stepsLeft_sum_set s.workers i p .building .released hw
    rw [e2, e1] at this
    simp only [Pool.stepsLeft, Pool.setPhase, hc, Bool.false_eq_true, if_false]
    omega
  | done i =>
    obtain ⟨hc, p, hw, rfl⟩ := (step_done_iff s s' i).1 h
    have := stepsLeft_sum_set s.workers i p .released .finished hw
    rw [e1, e0] at this
    simp only [Pool.stepsLeft, Pool.setPhase, hc, Bool.false_eq_true, if_false]
    split <;> omega

theorem run_stepsLeft (sched : Slice Action) (s s' : Pool) (h : run s sched = some s') :
    sched.length + s'.stepsLeft ≤ s.stepsLeft := by
  induction sched generalizing s with
  | nil =>
    simp [run] at h
    subst h
    simp
  | cons a rest ih =>
    simp only [run] at h
    cases hs : step s a with
    | none => simp [hs] at h
    | some t =>
      simp only [hs] at h
      have h1 := ih t h
      have h2 := stepsLeft_step s t a hs
      simp only [List.length_cons]
      omega

theorem init_stepsLeft (regions : Slice constants.RegionMeta) :
    (Pool.init regions).stepsLeft = 3 + 4 * (pairs regions).length := by
  simp [Pool.stepsLeft, Pool.init, MainPhase.stepsLeft]

theorem workers_length_of_looped (regions : Slice constants.RegionMeta) (s : Pool)
    (hI : Pool.Inv regions s) (hp : s.pending = []) :
    s.workers.length = (pairs regions).length := by
  have := congrArg List.length hI.started
  simpa [hp] using this

/-- With as many pairs as `wg.Add` counted, a state in which the process has
not ended and `wg.Wait()` has not returned has a step to take that is not a
fatal error. -/
theorem progress (regions : Slice constants.RegionMeta) (s : Pool)
    (hI : Pool.Inv regions s) (h10 : ((pairs regions).length : Int) = wgAdd)
    (hc : s.crashed = false) (hm : s.main ≠ .returned) :
    ∃ a, (∀ i, a ≠ Action.fatal i) ∧ (step s a).isSome = true := by
  cases hmain : s.main with
  | returned => exact absurd hmain hm
  | looping =>
    cases hp : s.pending with
    | nil =>
      refine ⟨.loopEnd, by simp, ?_⟩
      rw [(step_loopEnd_iff s _).2 ⟨hc, hmain, hp, rfl⟩]; rfl
    | cons p rest =>
      refine ⟨.spawn, by simp, ?_⟩
      rw [(step_spawn_iff s _).2 ⟨hc, hmain, p, rest, hp, rfl⟩]; rfl
  | waiting =>
    have hp : s.pending = [] := hI.looped (by simp [hmain])
    have hlen := workers_length_of_looped regions s hI hp
    have htot := count_phases_total s.workers
    by_cases hr : 0 < countPhase .released s.workers
    · obtain ⟨i, p, hi⟩ := exists_phase_of_count _ _ hr
      refine ⟨.done i, by simp, ?_⟩
      rw [(step_done_iff s _ i).2 ⟨hc, p, hi, rfl⟩]; rfl
    by_cases hb : 0 < countPhase .building s.workers
    · obtain ⟨i, p, hi⟩ := exists_phase_of_count _ _ hb
      refine ⟨.release i, by simp, ?_⟩
      have hpos : 0 < s.semaphore := by rw [← hI.slots]; exact hb
      rw [(step_release_iff s _ i).2 ⟨hc, p, hi, hpos, rfl⟩]; rfl
    by_cases hs : 0 < countPhase .spawned s.workers
    · obtain ⟨i, p, hi⟩ := exists_phase_of_count _ _ hs
      refine ⟨.acquire i, by simp, ?_⟩
      have hlt : s.semaphore < semaphoreCap := by
        rw [← hI.slots]; simp only [semaphoreCap]; omega
      rw [(step_acquire_iff s _ i).2 ⟨hc, p, hi, hlt, rfl⟩]; rfl
    · refine ⟨.wgReturn, by simp, ?_⟩
      have hw : s.wg = 0 := by
        have := hI.counter
        omega
      rw [(step_wgReturn_iff s _).2 ⟨hc, hmain, hw, rfl⟩]; rfl


/-! ## The worker pool -/

/-- Claim C6: in every state the worker pool can reach, for every
configuration, at most three workers hold an admission slot (are between their
send on `semaphore` and their receive from it); their number is the number of
elements buffered in the channel; while three hold a slot no further send goes
through, below three the send of a waiting worker does, and the receive of a worker
holding a slot always goes through. -/
theorem at_most_three_hold_a_slot (regions : Slice constants.RegionMeta)
    (sched : Slice Action) (s : Pool) (h : run (Pool.init regions) sched = some s) :
    s.holders ≤ 3 ∧ s.holders = s.semaphore ∧
    (s.holders = 3 → ∀ i, step s (.acquire i) = none) ∧
    (s.crashed = false → s.holders < 3 →
      ∀ i p, s.workers[i]? = some (p, .spawned) → (step s (.acquire i)).isSome = true) ∧
    (s.crashed = false →
      ∀ i p, s.workers[i]? = some (p, .building) → (step s (.release i)).isSome = true) := by
  have hI := Inv_reachable regions sched s h
  have hslots : s.holders = s.semaphore := hI.slots
  have hcap : s.semaphore ≤ 3 := hI.bounded
  refine ⟨by omega, hslots, ?_, ?_, ?_⟩
  · intro h3 i
    cases hst : step s (.acquire i) with
    | none => rfl
    | some s' =>
      obtain ⟨_, p, _, hlt, _⟩ := (step_acquire_iff s s' i).1 hst
      simp only [semaphoreCap] at hlt
      omega
  · intro hc hlt i p hw
    have hlt' : s.semaphore < semaphoreCap := by simp only [semaphoreCap]; omega
    rw [(step_acquire_iff s _ i).2 ⟨hc, p, hw, hlt', rfl⟩]; rfl
  · intro hc i p hw
    have hpos : 0 < countPhase .building s.workers := by
      have := countPhase_set .building s.workers i p .building .finished hw
      simp at this
      omega
    have hpos' : 0 < s.semaphore := by rw [← hI.slots]; exact hpos
    rw [(step_release_iff s _ i).2 ⟨hc, p, hw, hpos', rfl⟩]; rfl

/-- Witness for C6: with four pairs, after four workers are started and three
of them have sent on `semaphore`, three hold a slot and the send of the fourth
does not go through. -/
theorem at_most_three_hold_a_slot_witness :
    run (Pool.init fourLanguages)
        [.spawn, .spawn, .spawn, .spawn, .acquire 0, .acquire 1, .acquire 2]
      = some threeBuilding ∧
    threeBuilding.holders = 3 ∧ step threeBuilding (.acquire 3) = none :=
  ⟨by decide, by decide,
   (at_most_three_hold_a_slot fourLanguages
      [.spawn, .spawn, .spawn, .spawn, .acquire 0, .acquire 1, .acquire 2] threeBuilding
      (by decide)).2.2.1 (by decide) 3⟩

/-- Claim C7 as stated fails: with a configuration of one pair, after the only
build has finished the `WaitGroup` counter is 9, `wg.Wait()` has not returned
and no goroutine can take a step. -/
theorem wait_never_returns_with_one_pair :
    run (Pool.init singleRegion) [.spawn, .loopEnd, .acquire 0, .release 0, .done 0]
      = some singleBuilt ∧
    singleBuilt.allFinished ∧ singleBuilt.wg = 9 ∧ singleBuilt.main = .waiting ∧
    singleBuilt.crashed = false ∧ ∀ a, step singleBuilt a = none := by
  refine ⟨by decide, ⟨rfl, by decide⟩, rfl, rfl, rfl, ?_⟩
  intro a
  cases a with
  | spawn => rfl
  | loopEnd => rfl
  | wgReturn => rfl
  | acquire i => rcases i with _ | i <;> simp [step, singleBuilt]
  | fatal i => rcases i with _ | i <;> simp [step, singleBuilt]
  | release i => rcases i with _ | i <;> simp [step, singleBuilt]
  | done i => rcases i with _ | i <;> simp [step, singleBuilt]

/-- With eleven pairs `wg.Wait()` can return while a worker has not yet sent on
`semaphore`: the counter reaches zero after ten builds. -/
theorem wait_returns_early_with_eleven_pairs :
    ∃ s, run (Pool.init elevenLanguages)
        (List.replicate 11 Action.spawn ++ [Action.loopEnd] ++
          (List.range 10).flatMap workerSchedule ++ [Action.wgReturn]) = some s ∧
      s.main = .returned ∧ s.workers[10]? = some ((⟨2, [0, 1, 2, 3, 4, 5, 6, 7, 8, 9, 10], 2⟩, 10),
        Phase.spawned) := by
  decide

/-- Claim C7, amended: for every configuration with exactly ten pairs, in every
state the pool can reach the workers started and the pairs still to come are
the pairs of the configuration, one worker per pair; the `WaitGroup` counter is
never negative and is zero exactly when every pair has been started and every
worker has finished; `wg.Wait()` has returned only in such a state; as long as
the process has not ended and `wg.Wait()` has not returned some goroutine can
take a step other than a fatal error, every step lowers `stepsLeft` and no
schedule is longer than 43 steps, so `wg.Wait()` returns unless a fatal error
ends the process. -/
theorem wait_returns_after_all_builds (regions : Slice constants.RegionMeta)
    (h10 : (pairs regions).length = 10) (sched : Slice Action) (s : Pool)
    (h : run (Pool.init regions) sched = some s) :
    s.workers.map Prod.fst ++ s.pending = pairs regions ∧
    0 ≤ s.wg ∧
    (s.wg = 0 ↔ s.allFinished) ∧
    (s.main = .returned → s.allFinished ∧ s.workers.map Prod.fst = pairs regions) ∧
    (s.crashed = false → s.main ≠ .returned →
      ∃ a, (∀ i, a ≠ Action.fatal i) ∧ (step s a).isSome = true) ∧
    (∀ a s', step s a = some s' → s'.stepsLeft < s.stepsLeft) ∧
    sched.length + s.stepsLeft ≤ 43 := by
  have hI := Inv_reachable regions sched s h
  have hlen : s.workers.length + s.pending.length = 10 := by
    have := congrArg List.length hI.started
    simpa [h10] using this
  have hle := countPhase_le_length .finished s.workers
  have hcnt : s.wg + (countPhase .finished s.workers : Int) = 10 := hI.counter
  have hall : s.wg = 0 ↔ s.allFinished := by
    unfold Pool.allFinished
    constructor
    · intro hw
      have hp : s.pending.length = 0 := by omega
      exact ⟨List.length_eq_zero.1 hp, by omega⟩
    · rintro ⟨hp, hf⟩
      rw [hp] at hlen
      simp at hlen
      omega
  refine ⟨hI.started, by omega, hall, ?_, ?_, ?_, ?_⟩
  · intro hr
    have hw : (10 : Int) ≤ (countPhase .finished s.workers : Int) := hI.waited hr
    have hfin : s.allFinished := hall.1 (by omega)
    refine ⟨hfin, ?_⟩
    have := hI.started
    rwa [hfin.1, List.append_nil] at this
  · intro hc hm
    exact progress regions s hI (by rw [h10]; rfl) hc hm
  · intro a s' hst
    exact stepsLeft_step s s' a hst
  · have hb := run_stepsLeft sched _ s h
    rw [init_stepsLeft, h10] at hb
    omega

/-- Witness for C7 (amended): the ten pairs of `sampleRegions`, every worker
run to its end one after the other, reach the state in which all ten are
finished, the counter is zero and `wg.Wait()` has returned. -/
theorem wait_returns_after_all_builds_witness :
    (pairs sampleRegions).length = 10 ∧
    run (Pool.init sampleRegions) (sequentialSchedule 10) = some allBuilt ∧
    allBuilt.wg = 0 ∧ allBuilt.main = .returned ∧ allBuilt.allFinished :=
  ⟨by decide, by decide, rfl, rfl,
   ((wait_returns_after_all_builds sampleRegions (by decide) (sequentialSchedule 10) allBuilt
      (by decide)).2.2.2.1 rfl).1⟩

end dllist
